import Mathlib

set_option autoImplicit false

/-
Verification of the foundation module of learning-event-driven:
an in-memory CRUD service for a User resource.

The Go sources are embedded shallowly:
- Go strings are modelled as Lean String (for record fields) and as
  List Char (for the character-level email scan and URL paths);
- time.Now() is modelled by an explicit Nat argument supplied by the caller;
- generateID() is modelled by an explicit String argument; the spec
  stipulates that the generator only produces fresh tokens, so theorems
  that need freshness take it as a hypothesis;
- the map map[string]*User is modelled as a List User where assignment
  replaces every entry carrying the key (a real Go map holds at most one);
- functions returning (value, error) are modelled with Except/Option, and
  operations that can mutate the store return the new store explicitly.
-/

namespace UserSvc

/-- User mirrors the User struct of user.go: id, name, email and the two
timestamps (timestamps as Nat). -/
structure User where
  id : String
  name : String
  email : String
  created_at : Nat
  updated_at : Nat
deriving Repr, DecidableEq

/-- ErrorType mirrors the ErrorType constants of errors.go. -/
inductive ErrorType where
  | validation
  | notFound
  | conflict
  | internal
deriving Repr, DecidableEq

/-- AppError mirrors the AppError struct of errors.go (the Cause field,
only used for logging, is omitted; Field is "" when absent). -/
structure AppError where
  type : ErrorType
  message : String
  field : String
deriving Repr, DecidableEq

/-- NewValidationError from errors.go. -/
def NewValidationError (field message : String) : AppError :=
  { type := .validation, message := message, field := field }

/-- The single-quote character, used in the NotFound message. -/
def sq : String := String.singleton (Char.ofNat 39)

/-- NewNotFoundError from errors.go; the message is
fmt.Sprintf of resource and id. -/
def NewNotFoundError (resource id : String) : AppError :=
  { type := .notFound
    message := resource ++ " with id " ++ sq ++ id ++ sq ++ " not found"
    field := "" }

/-- NewConflictError from errors.go. -/
def NewConflictError (message : String) : AppError :=
  { type := .conflict, message := message, field := "" }

/-- First loop of isValidEmail (user.go): walk the characters with their
indices; on a second simultaneous match of the at-sign return the early
false (outer none); otherwise finish with the recorded index
(-1 is modelled as the inner none). -/
def scanAt : List Char → Nat → Option Nat → Option (Option Nat)
  | [], _, acc => some acc
  | c :: rest, i, acc =>
    if c = '@' then
      match acc with
      | some _ => none
      | none => scanAt rest (i + 1) (some i)
    else scanAt rest (i + 1) acc

/-- Second loop of isValidEmail (user.go): starting at index i over the
remaining characters, succeed on a dot whose index is `< len - 1`. -/
def dotLoop : List Char → Nat → Nat → Bool
  | [], _, _ => false
  | c :: rest, i, len =>
    if c = '.' ∧ i < len - 1 then true else dotLoop rest (i + 1) len

/-- isValidEmail from user.go: exactly one at-sign, not at either end,
and a dot strictly between the at-sign and the last character. -/
def isValidEmail (email : List Char) : Bool :=
  match scanAt email 0 none with
  | none => false
  | some none => false
  | some (some atIndex) =>
    if atIndex = 0 ∨ atIndex = email.length - 1 then false
    else dotLoop (email.drop (atIndex + 1)) (atIndex + 1) email.length

/-- The temporary record User.Update builds to pre-validate its arguments:
&User{Name: name, Email: email} with zero values elsewhere. -/
def tempUser (name email : String) : User :=
  { id := "", name := name, email := email, created_at := 0, updated_at := 0 }

/-- Validate from user.go: empty name, then empty email, then the
structural email rule; some = the returned error, none = nil. -/
def Validate (u : User) : Option AppError :=
  if u.name = "" then some (NewValidationError "name" "name cannot be empty")
  else if u.email = "" then some (NewValidationError "email" "email cannot be empty")
  else if !isValidEmail u.email.data then
    some (NewValidationError "email" "email format is invalid")
  else none

/-- NewUser from user.go: both timestamps are the same now; the id comes
from generateID, passed in explicitly. -/
def NewUser (id : String) (now : Nat) (name email : String) : User :=
  { id := id, name := name, email := email, created_at := now, updated_at := now }

/-- Update from user.go: validate a temporary record holding only the new
name/email; on failure return with NO change (the error is swallowed:
the body reads `return // or return the error`); otherwise overwrite each
non-empty field and refresh updated_at. -/
def User.update (u : User) (name email : String) (now : Nat) : User :=
  match Validate (tempUser name email) with
  | some _ => u
  | none =>
    let u1 := if name ≠ "" then { u with name := name } else u
    let u2 := if email ≠ "" then { u1 with email := email } else u1
    { u2 with updated_at := now }

/-- The in-memory store: the contents of the users map of
InMemoryUserService, as a list of records. -/
abbrev Store := List User

/-- Reading s.users[id]: the entry carrying the id, if any. -/
def mapGet (s : Store) (id : String) : Option User :=
  s.find? (fun u => u.id == id)

/-- Writing s.users[v.ID] = v: replace the entry carrying the id when
present, append otherwise (a Go map holds at most one entry per key). -/
def mapSet (s : Store) (v : User) : Store :=
  if s.any (fun u => u.id == v.id) then
    s.map (fun u => if u.id == v.id then v else u)
  else s ++ [v]

/-- GetUsers from service.go: every stored record, as value copies. -/
def GetUsers (s : Store) : List User := s

/-- GetUserByID from service.go. -/
def GetUserByID (s : Store) (id : String) : Except AppError User :=
  match mapGet s id with
  | none => .error (NewNotFoundError "user" id)
  | some u => .ok u

/-- checkEmailExists from service.go: scan every stored user for an exact
email match; Conflict when found. Taken under the shared read lock. -/
def checkEmailExists (s : Store) (email : String) : Option AppError :=
  if s.any (fun u => u.email == email) then
    some (NewConflictError "email already exists")
  else none

/-- The read-locked first phase of CreateUser (service.go): the
uniqueness scan, performed against the store as it is at that moment. -/
def createCheck (s : Store) (email : String) : Option AppError :=
  checkEmailExists s email

/-- The remainder of CreateUser (service.go): act on the earlier check
result, build and validate the candidate, and insert it under the
exclusive lock. The check result is NOT re-established here: the read
lock protecting the scan was released before the write lock is taken. -/
def createInsert (s : Store) (check : Option AppError) (id : String) (now : Nat)
    (name email : String) : Except AppError User × Store :=
  match check with
  | some e => (.error e, s)
  | none =>
    let user := NewUser id now name email
    match Validate user with
    | some e => (.error e, s)
    | none => (.ok user, mapSet s user)

/-- CreateUser from service.go: the sequential composition of the two
phases (check, then insert against the same store). -/
def CreateUser (s : Store) (id : String) (now : Nat) (name email : String) :
    Except AppError User × Store :=
  createInsert s (createCheck s email) id now name email

/-- UpdateUser from service.go, entirely under the exclusive lock:
NotFound for a missing id; Conflict when a non-empty, differing email is
held by another user; then User.Update mutates the live record in place
(so the store holds the updated record even on the validation branch),
then the record is re-validated. -/
def UpdateUser (s : Store) (now : Nat) (id name email : String) :
    Except AppError User × Store :=
  match mapGet s id with
  | none => (.error (NewNotFoundError "user" id), s)
  | some user =>
    if email != "" && email != user.email
        && s.any (fun eu => eu.id != id && eu.email == email) then
      (.error (NewConflictError "email already exists"), s)
    else
      let v := user.update name email now
      let s2 := mapSet s v
      match Validate v with
      | some e => (.error e, s2)
      | none => (.ok v, s2)

/-- DeleteUser from service.go: NotFound when absent, otherwise erase the
entry. -/
def DeleteUser (s : Store) (id : String) : Except AppError Unit × Store :=
  match mapGet s id with
  | none => (.error (NewNotFoundError "user" id), s)
  | some _ => (.ok (), s.filter (fun u => u.id != id))

/-- seedData from service.go: insert the three demonstration users; the
generated ids and the creation instants are passed in explicitly. -/
def seedData (s : Store) (id1 id2 id3 : String) (n1 n2 n3 : Nat) : Store :=
  mapSet (mapSet (mapSet s
    (NewUser id1 n1 "John Doe" "john.doe@example.com"))
    (NewUser id2 n2 "Jane Smith" "jane.smith@example.com"))
    (NewUser id3 n3 "Bob Johnson" "bob.johnson@example.com")

/-- NewInMemoryUserService from service.go: an empty map, then seedData. -/
def NewInMemoryUserService (id1 id2 id3 : String) (n1 n2 n3 : Nat) : Store :=
  seedData [] id1 id2 id3 n1 n2 n3

/-- The stored ids, in store order. -/
def ids (s : Store) : List String := s.map User.id

/-- The stored emails, in store order. -/
def emails (s : Store) : List String := s.map User.email

/-- Well-formedness: at most one entry per id (every state a Go map can
hold satisfies this). -/
def IdsNodup (s : Store) : Prop := (ids s).Nodup

/-- The email-uniqueness invariant: no two stored users share an email. -/
def EmailsUnique (s : Store) : Prop := (emails s).Nodup

/-- The store states reachable from a freshly constructed service by
sequences of mutating calls. The id hypotheses encode the spec's
guarantee that generateID never repeats a token. -/
inductive Reachable : Store → Prop where
  | seed (id1 id2 id3 : String) (n1 n2 n3 : Nat)
      (h12 : id1 ≠ id2) (h13 : id1 ≠ id3) (h23 : id2 ≠ id3) :
      Reachable (NewInMemoryUserService id1 id2 id3 n1 n2 n3)
  | create {s : Store} (id : String) (now : Nat) (name email : String)
      (hfresh : ∀ u ∈ s, u.id ≠ id) (hr : Reachable s) :
      Reachable (CreateUser s id now name email).2
  | update {s : Store} (now : Nat) (id name email : String) (hr : Reachable s) :
      Reachable (UpdateUser s now id name email).2
  | delete {s : Store} (id : String) (hr : Reachable s) :
      Reachable (DeleteUser s id).2

instance (s : Store) : Decidable (IdsNodup s) :=
  inferInstanceAs (Decidable (ids s).Nodup)

instance (s : Store) : Decidable (EmailsUnique s) :=
  inferInstanceAs (Decidable (emails s).Nodup)

/-- The §4.1 email rule exactly as the spec words it: the string contains
exactly one at-sign, that at-sign is neither the first nor the last
character, and some dot occurs strictly after the at-sign and strictly
before the final character. -/
def emailSpecRule (s : List Char) : Prop :=
  ∃ p, s.get? p = some '@' ∧ (∀ q, q ≠ p → s.get? q ≠ some '@') ∧
    p ≠ 0 ∧ p ≠ s.length - 1 ∧
    ∃ q, p < q ∧ q < s.length - 1 ∧ s.get? q = some '.'

lemma scanAt_not_mem {s : List Char} (h : '@' ∉ s) :
    ∀ i acc, scanAt s i acc = some acc := by
  induction s with
  | nil => intro i acc; rfl
  | cons c t ih =>
    intro i acc
    have hc : c ≠ '@' := by
      intro hc; exact h (hc ▸ List.mem_cons_self c t)
    have ht : '@' ∉ t := fun hm => h (List.mem_cons_of_mem c hm)
    simp only [scanAt, if_neg (fun hh : c = '@' => hc hh)]
    exact ih ht (i + 1) acc

lemma scanAt_mem_some {s : List Char} (h : '@' ∈ s) :
    ∀ i j, scanAt s i (some j) = none := by
  induction s with
  | nil => cases h
  | cons c t ih =>
    intro i j
    by_cases hc : c = '@'
    · simp [scanAt, hc]
    · have ht : '@' ∈ t := by
        cases List.mem_cons.mp h with
        | inl hh => exact absurd hh.symm hc
        | inr hh => exact hh
      simp only [scanAt, if_neg hc]
      exact ih ht (i + 1) j

lemma get?_ne_at_of_not_mem {s : List Char} (h : '@' ∉ s) :
    ∀ q, s.get? q ≠ some '@' := by
  intro q hq
  exact h (List.get?_mem hq)

lemma mem_of_get?_at {s : List Char} {q : Nat} (h : s.get? q = some '@') : '@' ∈ s :=
  List.get?_mem h

lemma scanAt_none_eq_iff (s : List Char) :
    ∀ i p, scanAt s i none = some (some p) ↔
      (∃ k, p = i + k ∧ s.get? k = some '@' ∧ ∀ q, q ≠ k → s.get? q ≠ some '@') := by
  induction s with
  | nil =>
    intro i p
    constructor
    · intro h; simp [scanAt] at h
    · rintro ⟨k, _, hk, _⟩; simp at hk
  | cons c t ih =>
    intro i p
    by_cases hc : c = '@'
    · subst hc
      simp only [scanAt, if_pos rfl]
      by_cases hm : '@' ∈ t
      · rw [scanAt_mem_some hm]
        constructor
        · intro h; cases h
        · rintro ⟨k, _, hk, huniq⟩
          obtain ⟨m, hgm⟩ := List.mem_iff_get?.mp hm
          have h0 : (('@' : Char) :: t).get? 0 = some '@' := rfl
          have hm1 : (('@' : Char) :: t).get? (m + 1) = some '@' := by
            simpa using hgm
          by_cases hk0 : k = 0
          · exact absurd hm1 (huniq (m + 1) (by omega))
          · exact absurd h0 (huniq 0 (fun hh => hk0 hh.symm))
      · rw [scanAt_not_mem hm]
        constructor
        · intro h
          have hp : p = i := by
            have := h; injection this with h1; injection h1 with h2; omega
          refine ⟨0, by omega, rfl, ?_⟩
          intro q hq
          match q with
          | 0 => exact absurd rfl hq
          | Nat.succ q => exact fun hg => hm (mem_of_get?_at (by simpa using hg))
        · rintro ⟨k, hpk, hk, huniq⟩
          have hk0 : k = 0 := by
            by_contra hne
            match k, hne with
            | Nat.succ k, _ =>
              exact hm (mem_of_get?_at (show t.get? k = some '@' by simpa using hk))
          subst hk0
          have : p = i := by omega
          subst this; rfl
    · simp only [scanAt, if_neg hc]
      rw [ih (i + 1) p]
      constructor
      · rintro ⟨k, hpk, hk, huniq⟩
        refine ⟨k + 1, by omega, by simpa using hk, ?_⟩
        intro q hq
        match q with
        | 0 => simpa using fun hh => hc hh
        | Nat.succ q =>
          have : q ≠ k := by omega
          simpa using huniq q this
      · rintro ⟨k, hpk, hk, huniq⟩
        match k with
        | 0 => exact absurd (by simpa using hk) hc
        | Nat.succ k =>
          refine ⟨k, by omega, by simpa using hk, ?_⟩
          intro q hq
          have : q + 1 ≠ k + 1 := by omega
          simpa using huniq (q + 1) this

lemma dotLoop_eq_true_iff (l : List Char) :
    ∀ i len, dotLoop l i len = true ↔
      ∃ k, l.get? k = some '.' ∧ i + k < len - 1 := by
  induction l with
  | nil => intro i len; simp [dotLoop]
  | cons c t ih =>
    intro i len
    simp only [dotLoop]
    split_ifs with hc
    · constructor
      · intro _; exact ⟨0, by simp [hc.1], by omega⟩
      · intro _; rfl
    · rw [ih (i + 1) len]
      constructor
      · rintro ⟨k, hk, hlt⟩
        exact ⟨k + 1, by simpa using hk, by omega⟩
      · rintro ⟨k, hk, hlt⟩
        match k with
        | 0 => exact absurd ⟨by simpa using hk, by omega⟩ hc
        | Nat.succ k => exact ⟨k, by simpa using hk, by omega⟩

/-- Given the unique at-sign position of the scan, any witness position of
the spec rule coincides with it. -/
lemma spec_pos_unique {s : List Char} {p q : Nat}
    (hq : s.get? q = some '@')
    (huniq : ∀ r, r ≠ p → s.get? r ≠ some '@') : q = p := by
  by_contra hne
  exact huniq q hne hq

/-- C5: isValidEmail accepts a string iff it contains exactly one at-sign,
that at-sign is neither the first nor the last character, and at least one
dot occurs strictly after the at-sign and strictly before the final
character. -/
theorem email_validator_matches_spec (s : List Char) :
    isValidEmail s = true ↔ emailSpecRule s := by
  unfold isValidEmail
  cases h : scanAt s 0 none with
  | none =>
    simp only [Bool.false_eq_true, false_iff]
    rintro ⟨p, hp, huniq, _⟩
    have hs : scanAt s 0 none = some (some p) :=
      (scanAt_none_eq_iff s 0 p).mpr ⟨p, by omega, hp, huniq⟩
    rw [h] at hs; cases hs
  | some acc =>
    cases acc with
    | none =>
      simp only [Bool.false_eq_true, false_iff]
      rintro ⟨p, hp, huniq, _⟩
      have hs : scanAt s 0 none = some (some p) :=
        (scanAt_none_eq_iff s 0 p).mpr ⟨p, by omega, hp, huniq⟩
      rw [h] at hs; cases hs
    | some p =>
      obtain ⟨k, hpk, hk, huniq⟩ := (scanAt_none_eq_iff s 0 p).mp h
      have hkp : k = p := by omega
      subst hkp
      dsimp only
      split_ifs with hends
      · simp only [Bool.false_eq_true, false_iff]
        rintro ⟨q, hq, _, hq0, hqlast, _⟩
        have hqp : q = k := spec_pos_unique hq huniq
        subst hqp
        cases hends with
        | inl hh => exact hq0 hh
        | inr hh => exact hqlast hh
      · rw [dotLoop_eq_true_iff]
        push_neg at hends
        constructor
        · rintro ⟨k2, hk2, hlt⟩
          have hgd : s.get? (k + 1 + k2) = some '.' := by
            rw [← List.get?_drop]; exact hk2
          exact ⟨k, hk, huniq, hends.1, hends.2,
            ⟨k + 1 + k2, by omega, by omega, hgd⟩⟩
        · rintro ⟨q, hq, _, _, _, w, hpw, hwlast, hw⟩
          have hqp : q = k := spec_pos_unique hq huniq
          subst hqp
          refine ⟨w - (q + 1), ?_, by omega⟩
          rw [List.get?_drop]
          have harith : q + 1 + (w - (q + 1)) = w := by omega
          rw [harith]; exact hw

lemma mapGet_eq_some {s : Store} {id : String} {u : User}
    (h : mapGet s id = some u) : u ∈ s ∧ u.id = id := by
  refine ⟨List.mem_of_find?_eq_some h, ?_⟩
  have hp := List.find?_some h
  simpa using hp

lemma mapGet_eq_none {s : Store} {id : String} :
    mapGet s id = none ↔ ∀ u ∈ s, u.id ≠ id := by
  unfold mapGet
  rw [List.find?_eq_none]
  simp

lemma checkEmailExists_eq_none {s : Store} {email : String} :
    checkEmailExists s email = none ↔ ∀ u ∈ s, u.email ≠ email := by
  unfold checkEmailExists
  split_ifs with h
  · simp only [List.any_eq_true, beq_iff_eq] at h
    obtain ⟨u, hu, he⟩ := h
    constructor
    · intro hh; cases hh
    · intro hall; exact absurd he (hall u hu)
  · simp only [List.any_eq_true, beq_iff_eq] at h
    push_neg at h
    exact iff_of_true rfl h

lemma checkEmailExists_eq_some {s : Store} {email : String} {u : User}
    (hu : u ∈ s) (he : u.email = email) :
    checkEmailExists s email = some (NewConflictError "email already exists") := by
  unfold checkEmailExists
  rw [if_pos]
  exact List.any_eq_true.mpr ⟨u, hu, by simpa using he⟩

lemma mapSet_of_fresh {s : Store} {v : User} (h : ∀ u ∈ s, u.id ≠ v.id) :
    mapSet s v = s ++ [v] := by
  unfold mapSet
  rw [if_neg]
  intro hc
  obtain ⟨u, hu, he⟩ := List.any_eq_true.mp hc
  exact h u hu (by simpa using he)

lemma find?_replace_eq_some (v : User) :
    ∀ s : Store, s.any (fun u => u.id == v.id) = true →
      (s.map (fun u => if u.id == v.id then v else u)).find?
        (fun u => u.id == v.id) = some v := by
  intro s
  induction s with
  | nil => intro h; cases h
  | cons a t ih =>
    intro h
    by_cases ha : a.id = v.id
    · rw [List.map_cons, if_pos (by simpa using ha)]
      rw [List.find?_cons_of_pos _ (by simp)]
    · have ht : t.any (fun u => u.id == v.id) = true := by
        rcases List.any_eq_true.mp h with ⟨u, hu, hue⟩
        rcases List.mem_cons.mp hu with h1 | h2
        · exact absurd (by simpa using hue) (h1 ▸ ha)
        · exact List.any_eq_true.mpr ⟨u, h2, hue⟩
      rw [List.map_cons, if_neg (by simpa using ha)]
      rw [List.find?_cons_of_neg _ (by simpa using ha)]
      exact ih ht

lemma find?_append_eq_some (v : User) :
    ∀ s : Store, (∀ u ∈ s, u.id ≠ v.id) →
      (s ++ [v]).find? (fun u => u.id == v.id) = some v := by
  intro s
  induction s with
  | nil =>
    intro _
    rw [List.nil_append]
    exact List.find?_cons_of_pos _ (by simp)
  | cons a t ih =>
    intro h
    rw [List.cons_append]
    rw [List.find?_cons_of_neg _ (by simpa using h a (List.mem_cons_self a t))]
    exact ih (fun u hu => h u (List.mem_cons_of_mem a hu))

lemma mapGet_mapSet_self (s : Store) (v : User) :
    mapGet (mapSet s v) v.id = some v := by
  unfold mapSet mapGet
  split_ifs with h
  · exact find?_replace_eq_some v s h
  · refine find?_append_eq_some v s ?_
    intro u hu hc
    exact h (List.any_eq_true.mpr ⟨u, hu, by simpa using hc⟩)

lemma mem_mapSet_self (s : Store) (v : User) : v ∈ mapSet s v :=
  (mapGet_eq_some (mapGet_mapSet_self s v)).1

lemma mem_mapSet_of_ne {s : Store} {u v : User} (hu : u ∈ s) (hne : u.id ≠ v.id) :
    u ∈ mapSet s v := by
  unfold mapSet
  split_ifs with h
  · refine List.mem_map.mpr ⟨u, hu, ?_⟩
    rw [if_neg]
    simpa using hne
  · exact List.mem_append_left _ hu

lemma nodup_id_unique {s : Store} (hn : IdsNodup s) {u x : User}
    (hu : u ∈ s) (hx : x ∈ s) (h : x.id = u.id) : x = u :=
  List.inj_on_of_nodup_map hn hx hu h

lemma emails_unique_inj {s : Store} (he : EmailsUnique s) {u x : User}
    (hu : u ∈ s) (hx : x ∈ s) (h : x.email = u.email) : x = u :=
  List.inj_on_of_nodup_map he hx hu h

lemma mapSet_eq_self {s : Store} {u : User} (hn : IdsNodup s) (hu : u ∈ s) :
    mapSet s u = s := by
  unfold mapSet
  rw [if_pos (List.any_eq_true.mpr ⟨u, hu, by simp⟩)]
  have hcongr : ∀ x ∈ s, (if x.id == u.id then u else x) = id x := by
    intro x hx
    by_cases h : x.id = u.id
    · rw [if_pos (by simpa using h)]
      exact (nodup_id_unique hn hu hx h).symm
    · rw [if_neg (by simpa using h)]
      rfl
  rw [List.map_congr_left hcongr, List.map_id]

lemma ids_replace (s : Store) (v : User) :
    ids (s.map (fun x => if x.id == v.id then v else x)) = ids s := by
  unfold ids
  rw [List.map_map]
  apply List.map_congr_left
  intro x _
  by_cases h : x.id = v.id
  · simp [Function.comp, h]
  · simp [Function.comp, h]

lemma emailsUnique_replace {v : User} :
    ∀ s : Store, IdsNodup s → EmailsUnique s →
    (∀ w ∈ s, w.id ≠ v.id → w.email ≠ v.email) →
    EmailsUnique (s.map (fun x => if x.id == v.id then v else x)) := by
  intro s
  induction s with
  | nil =>
    intro _ _ _
    simp [EmailsUnique, emails]
  | cons a t ih =>
    intro hids he hfresh
    have hids2 : a.id ∉ List.map User.id t ∧ (List.map User.id t).Nodup := by
      unfold IdsNodup ids at hids
      rw [List.map_cons, List.nodup_cons] at hids
      exact hids
    have he2 : a.email ∉ List.map User.email t ∧ (List.map User.email t).Nodup := by
      unfold EmailsUnique emails at he
      rw [List.map_cons, List.nodup_cons] at he
      exact he
    rw [List.map_cons]
    by_cases ha : a.id = v.id
    · rw [if_pos (by simpa using ha)]
      have hmap : t.map (fun x => if x.id == v.id then v else x) = t := by
        have hptw : ∀ x ∈ t, (if x.id == v.id then v else x) = id x := by
          intro x hx
          rw [if_neg]
          · rfl
          · simp only [beq_iff_eq]
            intro hc
            apply hids2.1
            rw [← ha] at hc
            rw [← hc]
            exact List.mem_map_of_mem User.id hx
        rw [List.map_congr_left hptw, List.map_id]
      rw [hmap]
      unfold EmailsUnique emails
      rw [List.map_cons, List.nodup_cons]
      refine ⟨?_, he2.2⟩
      intro hc
      obtain ⟨w, hw, hwe⟩ := List.mem_map.mp hc
      have hwid : w.id ≠ v.id := by
        intro hh
        apply hids2.1
        rw [← ha] at hh
        rw [← hh]
        exact List.mem_map_of_mem User.id hw
      exact hfresh w (List.mem_cons_of_mem a hw) hwid hwe
    · rw [if_neg (by simpa using ha)]
      unfold EmailsUnique emails
      rw [List.map_cons, List.nodup_cons]
      constructor
      · intro hc
        obtain ⟨y, hy, hye⟩ := List.mem_map.mp hc
        obtain ⟨x, hx, hxy⟩ := List.mem_map.mp hy
        by_cases hxid : x.id = v.id
        · have hyv : y = v := by rw [← hxy, if_pos (by simpa using hxid)]
          have hva : v.email = a.email := by rw [← hyv]; exact hye
          exact hfresh a (List.mem_cons_self a t) ha hva.symm
        · have hyx : y = x := by rw [← hxy, if_neg (by simpa using hxid)]
          have hxe : x.email = a.email := by rw [← hyx]; exact hye
          exact he2.1 (hxe ▸ List.mem_map_of_mem User.email hx)
      · exact ih hids2.2 he2.2 (fun w hw hwid => hfresh w (List.mem_cons_of_mem a hw) hwid)

lemma update_of_temp_invalid {name email : String}
    (h : (Validate (tempUser name email)).isSome = true) (u : User) (now : Nat) :
    u.update name email now = u := by
  unfold User.update
  rcases hv : Validate (tempUser name email) with _ | e
  · rw [hv] at h
    exact Bool.noConfusion h
  · rfl

lemma update_id (u : User) (name email : String) (now : Nat) :
    (u.update name email now).id = u.id := by
  unfold User.update
  rcases Validate (tempUser name email) with _ | e
  · dsimp only
    split_ifs <;> rfl
  · rfl

lemma update_email_cases (u : User) (name email : String) (now : Nat) :
    (u.update name email now).email = u.email ∨
      ((u.update name email now).email = email ∧ email ≠ "") := by
  unfold User.update
  rcases Validate (tempUser name email) with _ | e
  · dsimp only
    split_ifs with h1 h2 h3
    · exact Or.inr ⟨rfl, h1⟩
    · exact Or.inr ⟨rfl, h1⟩
    · exact Or.inl rfl
    · exact Or.inl rfl
  · exact Or.inl rfl

/-- A concrete stored user for the concrete evaluations below. -/
def sampleUser : User :=
  { id := "u1", name := "John Doe", email := "john@example.com",
    created_at := 0, updated_at := 0 }

/-- A store holding just sampleUser. -/
def sampleStore : Store := [sampleUser]

/-- C1: CreateUser does reject an empty name / structurally invalid email
with a field-scoped Validation error, but UpdateUser on an existing id
given the very same bad inputs returns success with the record unchanged:
User.Update pre-validates its arguments and silently discards them on
failure, so the validation-error return inside UpdateUser is unreachable.
This evaluates the code at the failing inputs of the claim. -/
theorem create_validates_but_update_swallows_invalid :
    (CreateUser sampleStore "u2" 5 "" "test@example.com").1 =
      .error (NewValidationError "name" "name cannot be empty") ∧
    (CreateUser sampleStore "u2" 5 "Test User" "invalid-email").1 =
      .error (NewValidationError "email" "email format is invalid") ∧
    UpdateUser sampleStore 5 "u1" "" "test@example.com" = (.ok sampleUser, sampleStore) ∧
    UpdateUser sampleStore 5 "u1" "Test User" "invalid-email" = (.ok sampleUser, sampleStore) :=
  ⟨rfl, rfl, rfl, rfl⟩

/-- C2: updating only the name (empty email meaning "no change") returns
success, yet the stored and returned record still carries the old name
and the old updated_at: the temporary record {name, ""} fails validation
inside User.Update, which silently applies nothing at all. -/
theorem update_name_only_changes_nothing :
    UpdateUser sampleStore 5 "u1" "New Name" "" = (.ok sampleUser, sampleStore) ∧
    sampleUser.name = "John Doe" ∧
    sampleUser.updated_at = 0 :=
  ⟨rfl, rfl, rfl⟩

/-- C3 (counterexample): at the spec's own example input — a new name
together with an email the validator rejects — the stored record keeps
its old name: no partially applied update survives, contradicting the
claimed partial-change behaviour. -/
theorem update_rejected_email_keeps_old_name :
    UpdateUser sampleStore 7 "u1" "Partial Name" "invalid-email" =
      (.ok sampleUser, sampleStore) ∧
    (UpdateUser sampleStore 7 "u1" "Partial Name" "invalid-email").2.map User.name =
      ["John Doe"] ∧
    "John Doe" ≠ "Partial Name" :=
  ⟨rfl, rfl, by decide⟩

/-- C3 (amended): whenever the supplied name/email fail validation,
UpdateUser on an existing valid user leaves the store entirely unchanged
— no field is applied, so there is nothing to roll back — and the call
reports either plain success with the unchanged record or a Conflict,
never a Validation error. -/
theorem update_failed_validation_leaves_store_unchanged
    (s : Store) (now : Nat) (id name email : String) (u : User)
    (hids : IdsNodup s) (hu : mapGet s id = some u) (hval : Validate u = none)
    (htemp : (Validate (tempUser name email)).isSome = true) :
    (UpdateUser s now id name email).2 = s ∧
      ((UpdateUser s now id name email).1 = .ok u ∨
        (UpdateUser s now id name email).1 =
          .error (NewConflictError "email already exists")) := by
  unfold UpdateUser
  rw [hu]
  dsimp only
  split_ifs with hconf
  · exact ⟨rfl, Or.inr rfl⟩
  · rw [update_of_temp_invalid htemp]
    rw [mapSet_eq_self hids (mapGet_eq_some hu).1, hval]
    exact ⟨rfl, Or.inl rfl⟩

/-- Witness for the amended C3 theorem at a concrete input. -/
theorem update_failed_validation_leaves_store_unchanged_witness :
    (UpdateUser sampleStore 9 "u1" "Other Name" "bad-email").2 = sampleStore ∧
      ((UpdateUser sampleStore 9 "u1" "Other Name" "bad-email").1 = .ok sampleUser ∨
        (UpdateUser sampleStore 9 "u1" "Other Name" "bad-email").1 =
          .error (NewConflictError "email already exists")) :=
  update_failed_validation_leaves_store_unchanged sampleStore 9 "u1" "Other Name"
    "bad-email" sampleUser (by decide) (by decide) (by decide) (by decide)

/-- C7: GetUserByID, UpdateUser and DeleteUser on an id that is not in the
store fail with the NotFound error and leave the store untouched, and a
second DeleteUser of an id that was just deleted returns NotFound. -/
theorem missing_id_not_found :
    (∀ (s : Store) (id name email : String) (now : Nat), mapGet s id = none →
      GetUserByID s id = .error (NewNotFoundError "user" id) ∧
      UpdateUser s now id name email = (.error (NewNotFoundError "user" id), s) ∧
      DeleteUser s id = (.error (NewNotFoundError "user" id), s)) ∧
    (∀ (s : Store) (id : String), (DeleteUser s id).1 = .ok () →
      DeleteUser (DeleteUser s id).2 id =
        (.error (NewNotFoundError "user" id), (DeleteUser s id).2)) := by
  constructor
  · intro s id name email now h
    refine ⟨?_, ?_, ?_⟩
    · unfold GetUserByID; rw [h]
    · unfold UpdateUser; rw [h]
    · unfold DeleteUser; rw [h]
  · intro s id h
    unfold DeleteUser at h ⊢
    cases hm : mapGet s id with
    | none =>
      rw [hm] at h
      simp at h
    | some u =>
      dsimp only
      have h2 : mapGet (s.filter (fun x => x.id != id)) id = none := by
        apply mapGet_eq_none.mpr
        intro x hx
        have hp := List.of_mem_filter hx
        simpa using hp
      rw [h2]

/-- Witness for the C7 theorem at concrete inputs. -/
theorem missing_id_not_found_witness :
    (GetUserByID sampleStore "ghost" = .error (NewNotFoundError "user" "ghost") ∧
      UpdateUser sampleStore 3 "ghost" "A" "a@b.cc" =
        (.error (NewNotFoundError "user" "ghost"), sampleStore) ∧
      DeleteUser sampleStore "ghost" =
        (.error (NewNotFoundError "user" "ghost"), sampleStore)) ∧
    DeleteUser (DeleteUser sampleStore "u1").2 "u1" =
      (.error (NewNotFoundError "user" "u1"), (DeleteUser sampleStore "u1").2) :=
  ⟨missing_id_not_found.1 sampleStore "ghost" "A" "a@b.cc" 3 (by decide),
   missing_id_not_found.2 sampleStore "u1" rfl⟩

lemma validate_newUser_none {id : String} {now : Nat} {name email : String}
    (hname : name ≠ "") (hemail : isValidEmail email.data = true) :
    Validate (NewUser id now name email) = none := by
  have hne : email ≠ "" := by
    intro h
    rw [h] at hemail
    exact absurd hemail (by decide)
  unfold Validate NewUser
  dsimp only
  rw [if_neg hname, if_neg hne, if_neg]
  rw [hemail]
  intro hc
  cases hc

/-- C8: with a non-empty name and a structurally valid email not yet in
the store, CreateUser succeeds with a fresh record whose name and email
are the supplied ones and whose created_at equals its updated_at, and an
immediate GetUserByID on the new id returns exactly that record. -/
theorem create_roundtrip
    (s : Store) (id : String) (now : Nat) (name email : String)
    (hname : name ≠ "") (hemail : isValidEmail email.data = true)
    (hfresh : ∀ u ∈ s, u.email ≠ email) :
    CreateUser s id now name email =
      (.ok (NewUser id now name email), mapSet s (NewUser id now name email)) ∧
    GetUserByID (CreateUser s id now name email).2 id = .ok (NewUser id now name email) ∧
    (NewUser id now name email).name = name ∧
    (NewUser id now name email).email = email ∧
    (NewUser id now name email).created_at = (NewUser id now name email).updated_at := by
  have hval : Validate (NewUser id now name email) = none :=
    validate_newUser_none hname hemail
  have hcheck : checkEmailExists s email = none := checkEmailExists_eq_none.mpr hfresh
  have hmain : CreateUser s id now name email =
      (.ok (NewUser id now name email), mapSet s (NewUser id now name email)) := by
    unfold CreateUser createInsert createCheck
    rw [hcheck]
    dsimp only
    rw [hval]
  refine ⟨hmain, ?_, rfl, rfl, rfl⟩
  rw [hmain]
  unfold GetUserByID
  have hget := mapGet_mapSet_self s (NewUser id now name email)
  rw [show (NewUser id now name email).id = id from rfl] at hget
  rw [hget]

/-- Witness for the C8 theorem at concrete inputs. -/
theorem create_roundtrip_witness :
    CreateUser sampleStore "u9" 4 "Alice" "alice@example.com" =
      (.ok (NewUser "u9" 4 "Alice" "alice@example.com"),
        mapSet sampleStore (NewUser "u9" 4 "Alice" "alice@example.com")) ∧
    GetUserByID (CreateUser sampleStore "u9" 4 "Alice" "alice@example.com").2 "u9" =
      .ok (NewUser "u9" 4 "Alice" "alice@example.com") ∧
    (NewUser "u9" 4 "Alice" "alice@example.com").name = "Alice" ∧
    (NewUser "u9" 4 "Alice" "alice@example.com").email = "alice@example.com" ∧
    (NewUser "u9" 4 "Alice" "alice@example.com").created_at =
      (NewUser "u9" 4 "Alice" "alice@example.com").updated_at :=
  create_roundtrip sampleStore "u9" 4 "Alice" "alice@example.com"
    (by decide) (by decide) (by decide)

lemma seed_explicit (id1 id2 id3 : String) (n1 n2 n3 : Nat)
    (h12 : id1 ≠ id2) (h13 : id1 ≠ id3) (h23 : id2 ≠ id3) :
    NewInMemoryUserService id1 id2 id3 n1 n2 n3 =
      [NewUser id1 n1 "John Doe" "john.doe@example.com",
       NewUser id2 n2 "Jane Smith" "jane.smith@example.com",
       NewUser id3 n3 "Bob Johnson" "bob.johnson@example.com"] := by
  have e1 : mapSet ([] : Store) (NewUser id1 n1 "John Doe" "john.doe@example.com") =
      [NewUser id1 n1 "John Doe" "john.doe@example.com"] := by
    rw [mapSet_of_fresh (fun u hu => absurd hu (List.not_mem_nil u))]
    rfl
  have e2 : mapSet [NewUser id1 n1 "John Doe" "john.doe@example.com"]
      (NewUser id2 n2 "Jane Smith" "jane.smith@example.com") =
      [NewUser id1 n1 "John Doe" "john.doe@example.com",
       NewUser id2 n2 "Jane Smith" "jane.smith@example.com"] := by
    rw [mapSet_of_fresh ?hf]
    case hf =>
      intro u hu
      rcases List.mem_singleton.mp hu with rfl
      simpa [NewUser] using h12
    rfl
  have e3 : mapSet [NewUser id1 n1 "John Doe" "john.doe@example.com",
      NewUser id2 n2 "Jane Smith" "jane.smith@example.com"]
      (NewUser id3 n3 "Bob Johnson" "bob.johnson@example.com") =
      [NewUser id1 n1 "John Doe" "john.doe@example.com",
       NewUser id2 n2 "Jane Smith" "jane.smith@example.com",
       NewUser id3 n3 "Bob Johnson" "bob.johnson@example.com"] := by
    rw [mapSet_of_fresh ?hg]
    case hg =>
      intro u hu
      rcases List.mem_cons.mp hu with rfl | hu2
      · simpa [NewUser] using h13
      · rcases List.mem_singleton.mp hu2 with rfl
        simpa [NewUser] using h23
    rfl
  unfold NewInMemoryUserService seedData
  rw [e1, e2, e3]

/-- C10: a freshly constructed service is pre-seeded with exactly the
three demonstration users, so GetUsers returns three records and
CreateUser with any of the three seeded emails fails with Conflict. -/
theorem fresh_service_seeded (id1 id2 id3 : String) (n1 n2 n3 : Nat)
    (h12 : id1 ≠ id2) (h13 : id1 ≠ id3) (h23 : id2 ≠ id3) :
    NewInMemoryUserService id1 id2 id3 n1 n2 n3 =
      [NewUser id1 n1 "John Doe" "john.doe@example.com",
       NewUser id2 n2 "Jane Smith" "jane.smith@example.com",
       NewUser id3 n3 "Bob Johnson" "bob.johnson@example.com"] ∧
    (GetUsers (NewInMemoryUserService id1 id2 id3 n1 n2 n3)).length = 3 ∧
    (∀ (e id name : String) (now : Nat),
      e = "john.doe@example.com" ∨ e = "jane.smith@example.com" ∨
        e = "bob.johnson@example.com" →
      (CreateUser (NewInMemoryUserService id1 id2 id3 n1 n2 n3) id now name e).1 =
        .error (NewConflictError "email already exists")) := by
  have hs := seed_explicit id1 id2 id3 n1 n2 n3 h12 h13 h23
  refine ⟨hs, by unfold GetUsers; rw [hs]; rfl, ?_⟩
  intro e id name now he
  unfold CreateUser createInsert createCheck
  have hc : checkEmailExists (NewInMemoryUserService id1 id2 id3 n1 n2 n3) e =
      some (NewConflictError "email already exists") := by
    rcases he with rfl | rfl | rfl
    · have hmem : NewUser id1 n1 "John Doe" "john.doe@example.com" ∈
          NewInMemoryUserService id1 id2 id3 n1 n2 n3 := by
        rw [hs]; exact List.mem_cons_self _ _
      exact checkEmailExists_eq_some hmem rfl
    · have hmem : NewUser id2 n2 "Jane Smith" "jane.smith@example.com" ∈
          NewInMemoryUserService id1 id2 id3 n1 n2 n3 := by
        rw [hs]; exact List.mem_cons_of_mem _ (List.mem_cons_self _ _)
      exact checkEmailExists_eq_some hmem rfl
    · have hmem : NewUser id3 n3 "Bob Johnson" "bob.johnson@example.com" ∈
          NewInMemoryUserService id1 id2 id3 n1 n2 n3 := by
        rw [hs]
        exact List.mem_cons_of_mem _ (List.mem_cons_of_mem _ (List.mem_cons_self _ _))
      exact checkEmailExists_eq_some hmem rfl
  rw [hc]

/-- Witness for the C10 theorem at concrete inputs. -/
theorem fresh_service_seeded_witness :
    NewInMemoryUserService "a" "b" "c" 0 0 0 =
      [NewUser "a" 0 "John Doe" "john.doe@example.com",
       NewUser "b" 0 "Jane Smith" "jane.smith@example.com",
       NewUser "c" 0 "Bob Johnson" "bob.johnson@example.com"] ∧
    (GetUsers (NewInMemoryUserService "a" "b" "c" 0 0 0)).length = 3 ∧
    (CreateUser (NewInMemoryUserService "a" "b" "c" 0 0 0) "d" 1 "Eve"
        "john.doe@example.com").1 =
      .error (NewConflictError "email already exists") := by
  obtain ⟨h1, h2, h3⟩ :=
    fresh_service_seeded "a" "b" "c" 0 0 0 (by decide) (by decide) (by decide)
  exact ⟨h1, h2, h3 "john.doe@example.com" "d" "Eve" 1 (Or.inl rfl)⟩

lemma inv_create {s : Store} (hinv : IdsNodup s ∧ EmailsUnique s)
    (id : String) (now : Nat) (name email : String)
    (hfresh : ∀ u ∈ s, u.id ≠ id) :
    IdsNodup (CreateUser s id now name email).2 ∧
      EmailsUnique (CreateUser s id now name email).2 := by
  unfold CreateUser createInsert createCheck
  cases hc : checkEmailExists s email with
  | some e => exact hinv
  | none =>
    dsimp only
    cases hv : Validate (NewUser id now name email) with
    | some e => exact hinv
    | none =>
      dsimp only
      rw [mapSet_of_fresh hfresh]
      have hem := checkEmailExists_eq_none.mp hc
      constructor
      · unfold IdsNodup ids
        rw [List.map_append, List.nodup_append]
        refine ⟨hinv.1, List.nodup_singleton _, ?_⟩
        intro a ha hb
        obtain ⟨u, hu, rfl⟩ := List.mem_map.mp ha
        rcases List.mem_singleton.mp (by simpa using hb) with heq
        exact hfresh u hu heq
      · unfold EmailsUnique emails
        rw [List.map_append, List.nodup_append]
        refine ⟨hinv.2, List.nodup_singleton _, ?_⟩
        intro a ha hb
        obtain ⟨u, hu, rfl⟩ := List.mem_map.mp ha
        rcases List.mem_singleton.mp (by simpa using hb) with heq
        exact hem u hu heq

lemma inv_update {s : Store} (hinv : IdsNodup s ∧ EmailsUnique s)
    (now : Nat) (id name email : String) :
    IdsNodup (UpdateUser s now id name email).2 ∧
      EmailsUnique (UpdateUser s now id name email).2 := by
  unfold UpdateUser
  cases hm : mapGet s id with
  | none => exact hinv
  | some u =>
    dsimp only
    split_ifs with hconf
    · exact hinv
    · obtain ⟨hu_mem, hu_id⟩ := mapGet_eq_some hm
      have hvid : (u.update name email now).id = u.id := update_id u name email now
      have hany : s.any (fun x => x.id == (u.update name email now).id) = true :=
        List.any_eq_true.mpr ⟨u, hu_mem, by simp [hvid]⟩
      have hset : mapSet s (u.update name email now) =
          s.map (fun x => if x.id == (u.update name email now).id then
            u.update name email now else x) := by
        unfold mapSet
        rw [if_pos hany]
      have hfreshmail : ∀ w ∈ s, w.id ≠ (u.update name email now).id →
          w.email ≠ (u.update name email now).email := by
        intro w hw hwid hwe
        rw [hvid] at hwid
        rcases update_email_cases u name email now with hcase | ⟨hcase, hne⟩
        · rw [hcase] at hwe
          have : w = u := emails_unique_inj hinv.2 hu_mem hw hwe
          exact hwid (by rw [this])
        · by_cases hee : email = u.email
          · rw [hcase, hee] at hwe
            have : w = u := emails_unique_inj hinv.2 hu_mem hw hwe
            exact hwid (by rw [this])
          · apply hconf
            rw [Bool.and_eq_true, Bool.and_eq_true]
            refine ⟨⟨by simpa using hne, by simpa using hee⟩, ?_⟩
            refine List.any_eq_true.mpr ⟨w, hw, ?_⟩
            rw [Bool.and_eq_true]
            refine ⟨by simpa using (hu_id ▸ hwid), by simpa using (hcase ▸ hwe)⟩
      have hresult : ∀ t : Store,
          (match Validate (u.update name email now) with
            | some e => ((Except.error e : Except AppError User), t)
            | none => (Except.ok (u.update name email now), t)).2 = t := by
        intro t
        cases Validate (u.update name email now) <;> rfl
      rw [hresult (mapSet s (u.update name email now)), hset]
      constructor
      · unfold IdsNodup
        rw [ids_replace s (u.update name email now)]
        exact hinv.1
      · exact emailsUnique_replace s hinv.1 hinv.2 hfreshmail

lemma inv_delete {s : Store} (hinv : IdsNodup s ∧ EmailsUnique s) (id : String) :
    IdsNodup (DeleteUser s id).2 ∧ EmailsUnique (DeleteUser s id).2 := by
  unfold DeleteUser
  cases hm : mapGet s id with
  | none => exact hinv
  | some u =>
    dsimp only
    have hsub : List.Sublist (s.filter (fun x => x.id != id)) s := List.filter_sublist s
    exact ⟨(List.Sublist.map User.id hsub).nodup hinv.1,
      (List.Sublist.map User.email hsub).nodup hinv.2⟩

lemma reachable_inv {s : Store} (h : Reachable s) :
    IdsNodup s ∧ EmailsUnique s := by
  induction h with
  | seed id1 id2 id3 n1 n2 n3 h12 h13 h23 =>
    rw [seed_explicit id1 id2 id3 n1 n2 n3 h12 h13 h23]
    constructor
    · unfold IdsNodup ids
      simp [NewUser, h12, h13, h23]
    · unfold EmailsUnique emails
      simp [NewUser]

  | create id now name email hfresh hr ih => exact inv_create ih id now name email hfresh
  | update now id name email hr ih => exact inv_update ih now id name email
  | delete id hr ih => exact inv_delete ih id

/-- C4: in every reachable store state no two users share an email;
CreateUser with an email already stored fails with Conflict whatever the
name; and UpdateUser with a non-empty email that differs from the current
one and is held by another user fails with Conflict. -/
theorem email_uniqueness_invariant :
    (∀ s : Store, Reachable s → EmailsUnique s) ∧
    (∀ (s : Store) (id : String) (now : Nat) (name email : String) (u : User),
      u ∈ s → u.email = email →
      CreateUser s id now name email =
        (.error (NewConflictError "email already exists"), s)) ∧
    (∀ (s : Store) (now : Nat) (id name email : String) (u w : User),
      mapGet s id = some u → email ≠ "" → email ≠ u.email →
      w ∈ s → w.id ≠ id → w.email = email →
      UpdateUser s now id name email =
        (.error (NewConflictError "email already exists"), s)) := by
  refine ⟨fun s h => (reachable_inv h).2, ?_, ?_⟩
  · intro s id now name email u hu he
    unfold CreateUser createInsert createCheck
    rw [checkEmailExists_eq_some hu he]
  · intro s now id name email u w hm he1 he2 hw hwid hwe
    unfold UpdateUser
    rw [hm]
    dsimp only
    rw [if_pos]
    rw [Bool.and_eq_true, Bool.and_eq_true]
    exact ⟨⟨by simpa using he1, by simpa using he2⟩,
      List.any_eq_true.mpr ⟨w, hw, by
        rw [Bool.and_eq_true]
        exact ⟨by simpa using hwid, by simpa using hwe⟩⟩⟩

/-- Witness for the C4 theorem at concrete inputs. -/
theorem email_uniqueness_invariant_witness :
    EmailsUnique (NewInMemoryUserService "a" "b" "c" 0 0 0) ∧
    CreateUser sampleStore "u7" 2 "Any Name" "john@example.com" =
      (.error (NewConflictError "email already exists"), sampleStore) ∧
    UpdateUser [sampleUser, NewUser "u2" 1 "Jane" "jane@example.com"] 3 "u2"
        "Jane" "john@example.com" =
      (.error (NewConflictError "email already exists"),
        [sampleUser, NewUser "u2" 1 "Jane" "jane@example.com"]) :=
  ⟨email_uniqueness_invariant.1 _
      (Reachable.seed "a" "b" "c" 0 0 0 (by decide) (by decide) (by decide)),
   email_uniqueness_invariant.2.1 sampleStore "u7" 2 "Any Name" "john@example.com"
      sampleUser (List.mem_cons_self _ _) rfl,
   email_uniqueness_invariant.2.2 [sampleUser, NewUser "u2" 1 "Jane" "jane@example.com"]
      3 "u2" "Jane" "john@example.com" (NewUser "u2" 1 "Jane" "jane@example.com")
      sampleUser (by decide) (by decide) (by decide)
      (List.mem_cons_self _ _) (by decide) rfl⟩

/-- C6 (counterexample): a two-call interleaving in which both read-locked
uniqueness scans run against the initial store before either write-locked
insert. Both CreateUser calls with the same email succeed and the final
store carries the email twice: two concurrent same-email creates do not
yield exactly one success and one Conflict. -/
theorem concurrent_create_both_succeed :
    (createInsert [] (createCheck [] "dup@example.com") "i1" 1 "Alice"
        "dup@example.com").1 = .ok (NewUser "i1" 1 "Alice" "dup@example.com") ∧
    (createInsert (createInsert [] (createCheck [] "dup@example.com") "i1" 1 "Alice"
          "dup@example.com").2
        (createCheck [] "dup@example.com") "i2" 2 "Bob" "dup@example.com").1 =
      .ok (NewUser "i2" 2 "Bob" "dup@example.com") ∧
    ¬ EmailsUnique (createInsert (createInsert [] (createCheck [] "dup@example.com")
          "i1" 1 "Alice" "dup@example.com").2
        (createCheck [] "dup@example.com") "i2" 2 "Bob" "dup@example.com").2 :=
  ⟨rfl, rfl, by decide⟩

/-- C6 (amended): UpdateUser and DeleteUser run entirely under the
exclusive lock, but CreateUser performs its uniqueness scan in a separate
read-locked phase and releases it before the exclusive-locked insert.
Executed sequentially, two same-email creates yield one success and one
Conflict; but when the two calls interleave so that both checks run before
either insert, both succeed and the store ends with a duplicated email. -/
theorem create_uniqueness_scan_not_atomic
    (s : Store) (id1 id2 : String) (n1 n2 : Nat) (name1 name2 email : String)
    (h1 : name1 ≠ "") (h2 : name2 ≠ "") (he : isValidEmail email.data = true)
    (hfresh : ∀ u ∈ s, u.email ≠ email) (hid : id1 ≠ id2) :
    ((CreateUser s id1 n1 name1 email).1 = .ok (NewUser id1 n1 name1 email) ∧
      (CreateUser (CreateUser s id1 n1 name1 email).2 id2 n2 name2 email).1 =
        .error (NewConflictError "email already exists")) ∧
    ((createInsert s (createCheck s email) id1 n1 name1 email).1 =
        .ok (NewUser id1 n1 name1 email) ∧
      (createInsert (createInsert s (createCheck s email) id1 n1 name1 email).2
          (createCheck s email) id2 n2 name2 email).1 =
        .ok (NewUser id2 n2 name2 email) ∧
      ¬ EmailsUnique (createInsert (createInsert s (createCheck s email) id1 n1 name1
          email).2 (createCheck s email) id2 n2 name2 email).2) := by
  have hcheck : createCheck s email = none := checkEmailExists_eq_none.mpr hfresh
  have hins1 : createInsert s (createCheck s email) id1 n1 name1 email =
      (.ok (NewUser id1 n1 name1 email),
        mapSet s (NewUser id1 n1 name1 email)) := by
    unfold createInsert
    rw [hcheck]
    dsimp only
    rw [validate_newUser_none h1 he]
  have hins2 : createInsert (mapSet s (NewUser id1 n1 name1 email))
      (createCheck s email) id2 n2 name2 email =
      (.ok (NewUser id2 n2 name2 email),
        mapSet (mapSet s (NewUser id1 n1 name1 email)) (NewUser id2 n2 name2 email)) := by
    unfold createInsert
    rw [hcheck]
    dsimp only
    rw [validate_newUser_none h2 he]
  constructor
  · constructor
    · show (createInsert s (createCheck s email) id1 n1 name1 email).1 = _
      rw [hins1]
    · show (createInsert (CreateUser s id1 n1 name1 email).2
          (createCheck (CreateUser s id1 n1 name1 email).2 email) id2 n2 name2 email).1 = _
      have hstore1 : (CreateUser s id1 n1 name1 email).2 =
          mapSet s (NewUser id1 n1 name1 email) := by
        show (createInsert s (createCheck s email) id1 n1 name1 email).2 = _
        rw [hins1]
      rw [hstore1]
      have hdup : checkEmailExists (mapSet s (NewUser id1 n1 name1 email)) email =
          some (NewConflictError "email already exists") :=
        checkEmailExists_eq_some (mem_mapSet_self s (NewUser id1 n1 name1 email)) rfl
      unfold createInsert createCheck
      rw [hdup]
  · rw [hins1]
    dsimp only
    rw [hins2]
    refine ⟨rfl, rfl, ?_⟩
    intro hE
    have hm2 : NewUser id2 n2 name2 email ∈
        mapSet (mapSet s (NewUser id1 n1 name1 email)) (NewUser id2 n2 name2 email) :=
      mem_mapSet_self _ _
    have hm1 : NewUser id1 n1 name1 email ∈
        mapSet (mapSet s (NewUser id1 n1 name1 email)) (NewUser id2 n2 name2 email) :=
      mem_mapSet_of_ne (mem_mapSet_self s _) hid
    have heq : NewUser id1 n1 name1 email = NewUser id2 n2 name2 email :=
      emails_unique_inj hE hm2 hm1 rfl
    exact hid (congrArg User.id heq)

/-- Witness for the amended C6 theorem at concrete inputs. -/
theorem create_uniqueness_scan_not_atomic_witness :
    ((CreateUser [] "j1" 1 "Ann" "x@y.zz").1 = .ok (NewUser "j1" 1 "Ann" "x@y.zz") ∧
      (CreateUser (CreateUser [] "j1" 1 "Ann" "x@y.zz").2 "j2" 2 "Ben" "x@y.zz").1 =
        .error (NewConflictError "email already exists")) ∧
    ((createInsert [] (createCheck [] "x@y.zz") "j1" 1 "Ann" "x@y.zz").1 =
        .ok (NewUser "j1" 1 "Ann" "x@y.zz") ∧
      (createInsert (createInsert [] (createCheck [] "x@y.zz") "j1" 1 "Ann" "x@y.zz").2
          (createCheck [] "x@y.zz") "j2" 2 "Ben" "x@y.zz").1 =
        .ok (NewUser "j2" 2 "Ben" "x@y.zz") ∧
      ¬ EmailsUnique (createInsert (createInsert [] (createCheck [] "x@y.zz") "j1" 1
          "Ann" "x@y.zz").2 (createCheck [] "x@y.zz") "j2" 2 "Ben" "x@y.zz").2) :=
  create_uniqueness_scan_not_atomic [] "j1" "j2" 1 2 "Ann" "Ben" "x@y.zz"
    (by decide) (by decide) (by decide) (fun u hu => absurd hu (List.not_mem_nil u))
    (by decide)

/-- strings.HasPrefix: the first list is an initial segment of the second. -/
def hasPre : List Char → List Char → Bool
  | [], _ => true
  | _ :: _, [] => false
  | p :: ps, c :: cs => p == c && hasPre ps cs

/-- strings.TrimPrefix(s, pre): s without the leading pre when present,
otherwise s unchanged. -/
def dropPre (s pre : List Char) : List Char :=
  if hasPre pre s then s.drop pre.length else s

/-- The store operation a routed request maps to (handlers.go). -/
inductive UserOp where
  | list
  | create
  | getById (id : List Char)
  | updateById (id : List Char)
  | deleteById (id : List Char)
deriving Repr, DecidableEq

/-- What the routing layer decides for a request: forward to a store
operation (the response status then depends on the operation's outcome),
or answer immediately with a fixed status code. -/
inductive WebReply where
  | op (o : UserOp)
  | status (code : Nat)
deriving Repr, DecidableEq

/-- UserHandler.ServeHTTP from handlers.go: trim the /users segment,
dispatch on the remaining path shape and the method; unknown methods get
405, a path not starting with / gets 404. -/
def userRoute (method : String) (path : List Char) : WebReply :=
  let p := dropPre path "/users".data
  if p = [] ∨ p = "/".data then
    if method = "GET" then .op .list
    else if method = "POST" then .op .create
    else .status 405
  else if hasPre "/".data p then
    let userID := dropPre p "/".data
    if method = "GET" then .op (.getById userID)
    else if method = "PUT" then .op (.updateById userID)
    else if method = "DELETE" then .op (.deleteById userID)
    else .status 405
  else .status 404

/-- healthHandler from handlers.go: a fixed 200 payload, the method is
never inspected. -/
def healthRoute (method : String) (path : List Char) : WebReply :=
  .status 200

/-- rootHandler from handlers.go: 404 for every path other than /, a fixed
200 payload for / itself; the method is never inspected. -/
def rootRoute (method : String) (path : List Char) : WebReply :=
  if path ≠ "/".data then .status 404 else .status 200

/-- The ServeMux wiring of main.go: /users exact and /users/ by prefix go
to the user handler, /health exact to the health handler, everything else
to the root handler. -/
def muxServe (method : String) (path : List Char) : WebReply :=
  if path = "/users".data then userRoute method path
  else if hasPre "/users/".data path then userRoute method path
  else if path = "/health".data then healthRoute method path
  else rootRoute method path

lemma hasPre_append : ∀ p rest : List Char, hasPre p (p ++ rest) = true := by
  intro p
  induction p with
  | nil => intro rest; rfl
  | cons c t ih =>
    intro rest
    show (c == c && hasPre t (t ++ rest)) = true
    rw [ih rest]
    simp

lemma dropPre_append (p rest : List Char) : dropPre (p ++ rest) p = rest := by
  unfold dropPre
  rw [if_pos (hasPre_append p rest)]
  exact List.drop_left p rest

/-- C9 (amended): a method other than GET/POST on /users, or other than
GET/PUT/DELETE on /users/{id}, is answered 405; /health and / answer 200
to every method, the method is never checked; any path outside the
routing table is answered 404. -/
theorem dispatcher_status_codes (method : String) (id path : List Char) :
    (method ≠ "GET" → method ≠ "POST" →
      muxServe method "/users".data = .status 405) ∧
    (id ≠ [] → method ≠ "GET" → method ≠ "PUT" → method ≠ "DELETE" →
      muxServe method ("/users/".data ++ id) = .status 405) ∧
    muxServe method "/health".data = .status 200 ∧
    muxServe method "/".data = .status 200 ∧
    (path ≠ "/users".data → hasPre "/users/".data path = false →
      path ≠ "/health".data → path ≠ "/".data →
      muxServe method path = .status 404) := by
  refine ⟨?_, ?_, ?_, ?_, ?_⟩
  · intro hg hp
    unfold muxServe
    rw [if_pos rfl]
    unfold userRoute
    dsimp only
    have hdrop : dropPre "/users".data "/users".data = [] := by decide
    rw [hdrop]
    rw [if_pos (Or.inl rfl), if_neg hg, if_neg hp]
  · intro hid hg hp hd
    have hsplit : "/users/".data ++ id = "/users".data ++ ('/' :: id) := by
      have hu : "/users/".data = "/users".data ++ ['/'] := by decide
      rw [hu, List.append_assoc]
      rfl
    have hne6 : "/users/".data ++ id ≠ "/users".data := by
      intro h
      have hlen := congrArg List.length h
      rw [List.length_append] at hlen
      have h7 : ("/users/".data).length = 7 := by decide
      have h6 : ("/users".data).length = 6 := by decide
      rw [h7, h6] at hlen
      omega
    unfold muxServe
    rw [if_neg hne6, if_pos (hasPre_append "/users/".data id)]
    unfold userRoute
    dsimp only
    have hdrop : dropPre ("/users/".data ++ id) "/users".data = '/' :: id := by
      rw [hsplit]
      exact dropPre_append "/users".data ('/' :: id)
    rw [hdrop]
    rw [if_neg ?hshape]
    case hshape =>
      intro hor
      rcases hor with hh | hh
      · exact List.cons_ne_nil '/' id hh
      · injection hh with hh1 hh2
        exact hid hh2
    rw [if_pos ?hpre]
    case hpre =>
      show hasPre "/".data ('/' :: id) = true
      have hslash : "/".data = ['/'] := by decide
      rw [hslash]
      show ('/' == '/' && hasPre [] id) = true
      rfl
    rw [if_neg hg, if_neg hp, if_neg hd]
  · unfold muxServe
    rw [if_neg (by decide), if_neg (by decide), if_pos rfl]
    rfl
  · unfold muxServe
    rw [if_neg (by decide), if_neg (by decide), if_neg (by decide)]
    unfold rootRoute
    rw [if_neg (fun h => h rfl)]
  · intro h1 h2 h3 h4
    unfold muxServe
    rw [if_neg h1, if_neg (by rw [h2]; exact Bool.false_ne_true), if_neg h3]
    unfold rootRoute
    rw [if_pos h4]

/-- Witness for the amended C9 theorem at concrete inputs. -/
theorem dispatcher_status_codes_witness :
    muxServe "PATCH" "/users".data = .status 405 ∧
    muxServe "PATCH" ("/users/".data ++ "abc".data) = .status 405 ∧
    muxServe "PATCH" "/health".data = .status 200 ∧
    muxServe "PATCH" "/".data = .status 200 ∧
    muxServe "PATCH" "/nope".data = .status 404 := by
  obtain ⟨w1, w2, w3, w4, w5⟩ :=
    dispatcher_status_codes "PATCH" "abc".data "/nope".data
  exact ⟨w1 (by decide) (by decide),
    w2 (by decide) (by decide) (by decide) (by decide), w3, w4,
    w5 (by decide) (by decide) (by decide) (by decide)⟩

/-- C9 (counterexample): POST is not a listed method for /health, yet the
dispatcher answers 200, not the 405 the claim requires — healthHandler
never inspects the method. -/
theorem health_post_answers_200_not_405 :
    muxServe "POST" "/health".data = .status 200 ∧
    WebReply.status 200 ≠ WebReply.status 405 :=
  ⟨by decide, by decide⟩

end UserSvc
